import Mathlib

/-!
Shallow embedding of the User CRUD backend (`src/backend/main_api.py`,
`src/backend/pydantic_classes.py`, `src/backend/sql_alchemy.py`).

The storage is the SQLite table `user` (`sql_alchemy.py`), whose rows carry
`id : int` (primary key), `username : str`, `email : str`, `dateOfBirth : date`,
`isActive : bool`.  We model the table as a `List User` in insertion order and
each endpoint of `main_api.py` as a function from the table (and its request
arguments) to a result together with the table after the request.  A request
that raises is modelled by an `Except.error` carrying the HTTP error the
exception handlers of `main_api.py` produce (404 NotFound, 409 Conflict from
`IntegrityError`, 400 BadRequest for bulk failures); on such a request the
`get_db` dependency rolls the session back, so the returned table is the
pre-request one.
-/

/-- Calendar date, the `datetime.date` values stored in `dateOfBirth`. -/
structure Date where
  year : Nat
  month : Nat
  day : Nat
deriving DecidableEq

/-- `UserCreate` of `pydantic_classes.py`: the validated request body for
create, bulk create and update. -/
structure UserCreate where
  isActive : Bool
  username : String
  id : Int
  dateOfBirth : Date
  email : String
deriving DecidableEq

/-- A row of the `user` table (`sql_alchemy.py`), primary key `id`. -/
structure User where
  id : Int
  username : String
  email : String
  dateOfBirth : Date
  isActive : Bool
deriving DecidableEq

/-- The row built from a request body, as in
`User(isActive=..., username=..., id=..., dateOfBirth=..., email=...)`
in `create_user` and `bulk_create_user`. -/
def User.ofCreate (u : UserCreate) : User :=
  { id := u.id, username := u.username, email := u.email
    dateOfBirth := u.dateOfBirth, isActive := u.isActive }

/-- The errors the exception handlers of `main_api.py` turn requests into:
404 from `HTTPException(status_code=404)`, 409 Conflict from
`integrity_error_handler`, 400 with the per-index error list from
`bulk_create_user`'s `HTTPException(status_code=400, ...)`. -/
inductive ApiError where
  | notFound : ApiError
  | conflict : ApiError
  | badRequest : List Nat → ApiError
deriving DecidableEq

/-- The storage: the rows of the `user` table, in insertion order. -/
abbrev Storage := List User

/-- Whether some row carries primary key `i`: the SQLite uniqueness check the
primary-key constraint performs on INSERT/UPDATE. -/
def hasId (s : Storage) (i : Int) : Bool :=
  s.any (fun u => u.id == i)

/-- `create_user` (`main_api.py` lines 257-271): build the row from the body
and `add`/`commit` it.  A duplicate primary key makes `commit` raise
`IntegrityError`, which `integrity_error_handler` maps to 409 Conflict and
`get_db` rolls back. -/
def create_user (s : Storage) (u : UserCreate) : Except ApiError User × Storage :=
  let db_user := User.ofCreate u
  if hasId s u.id then (.error .conflict, s)
  else (.ok db_user, s ++ [db_user])

/-- The response shape of `get_user`, which returns `{"user": db_user}`. -/
structure GetUserResponse where
  user : User
deriving DecidableEq

/-- `get_user` (`main_api.py` lines 244-253): first row with the given id,
404 when there is none. -/
def get_user (s : Storage) (user_id : Int) : Except ApiError GetUserResponse :=
  match s.find? (fun u => u.id == user_id) with
  | none => .error .notFound
  | some db_user => .ok ⟨db_user⟩

/-- `get_all_user` (`main_api.py` lines 205-209): `query(User).all()`. -/
def get_all_user (s : Storage) : List User := s

/-- `get_count_user` (`main_api.py` lines 212-216): `query(User).count()`. -/
def get_count_user (s : Storage) : Nat := s.length

/-- A sample valid request body, the example of spec section 8. -/
def adaCreate : UserCreate := ⟨true, "ada", 1, ⟨1990, 1, 1⟩, "a@x.com"⟩

/-- The row created from `adaCreate`. -/
def adaRow : User := User.ofCreate adaCreate

/-- The response shape of `get_paginated_user`:
`{"total": ..., "skip": ..., "limit": ..., "data": ...}`. -/
structure PageResult where
  total : Nat
  skip : Int
  limit : Int
  data : List User
deriving DecidableEq

/-- The row window SQLite serves for `.offset(skip).limit(limit)`, i.e.
`LIMIT limit OFFSET skip`: a negative OFFSET behaves as 0 (`Int.toNat` maps
negatives to 0) and a negative LIMIT means no limit. -/
def sqliteWindow (rows : List User) (skip limit : Int) : List User :=
  let rest := rows.drop skip.toNat
  if limit < 0 then rest else rest.take limit.toNat

/-- `get_paginated_user` (`main_api.py` lines 219-229): `total` from
`query(User).count()`, `data` from `query(User).offset(skip).limit(limit)`,
and `skip`/`limit` echoed back exactly as received (Python defaults are
`skip=0, limit=100`; no clamping is performed on either). -/
def get_paginated_user (s : Storage) (skip limit : Int) : PageResult :=
  { total := s.length, skip := skip, limit := limit
    data := sqliteWindow s skip limit }

/-- `delete_user` (`main_api.py` lines 343-350): find the first row with the
given id, 404 if none, otherwise `delete` that row, `commit`, and return the
deleted row. -/
def delete_user (s : Storage) (user_id : Int) : Except ApiError User × Storage :=
  match s.find? (fun u => u.id == user_id) with
  | none => (.error .notFound, s)
  | some db_user => (.ok db_user, s.eraseP (fun u => u.id == user_id))

/-- The success response of `bulk_create_user`:
`{"created_count": ..., "created_ids": ...}` (plus a message string we do not
model). -/
structure BulkCreateResult where
  created_count : Nat
  created_ids : List Int
deriving DecidableEq

/-- Accumulator of `bulk_create_user`'s loop: the rows flushed so far
(`database.add` + `database.flush`), the collected `created_items` ids, the
collected error indices, and whether a flush has already failed.  After a
failed flush the SQLAlchemy session is invalidated until rollback, so every
later `database.flush()` raises (`PendingRollbackError`) and is caught by the
same `except` clause: the `poisoned` flag records that. -/
structure BulkCreateAcc where
  pending : Storage
  created : List Int
  errors : List Nat
  poisoned : Bool
deriving DecidableEq

/-- The `for idx, item_data in enumerate(items)` loop of `bulk_create_user`
(`main_api.py` lines 280-290).  A flush fails exactly when the item's primary
key collides with a committed row or an already-flushed row of this batch
(`IntegrityError`); once a flush has failed, every later flush fails too. -/
def bulkCreateLoop (s : Storage) (acc : BulkCreateAcc) (idx : Nat) :
    List UserCreate → BulkCreateAcc
  | [] => acc
  | item :: rest =>
    if acc.poisoned then
      bulkCreateLoop s { acc with errors := acc.errors ++ [idx] } (idx + 1) rest
    else if hasId (s ++ acc.pending) item.id then
      bulkCreateLoop s
        { acc with errors := acc.errors ++ [idx], poisoned := true } (idx + 1) rest
    else
      let db_user := User.ofCreate item
      bulkCreateLoop s
        { acc with pending := acc.pending ++ [db_user], created := acc.created ++ [db_user.id] }
        (idx + 1) rest

/-- `bulk_create_user` (`main_api.py` lines 274-301): run the loop; if any
error was collected, `rollback` (storage unchanged) and raise the 400 with the
error indices; otherwise `commit` the flushed rows and report the ids. -/
def bulk_create_user (s : Storage) (items : List UserCreate) :
    Except ApiError BulkCreateResult × Storage :=
  let acc := bulkCreateLoop s ⟨[], [], [], false⟩ 0 items
  if acc.errors.isEmpty then (.ok ⟨acc.created.length, acc.created⟩, s ++ acc.pending)
  else (.error (.badRequest acc.errors), s)

/-- Replace the first row carrying `user_id` by `r`, keeping its position:
the in-place `setattr` field assignments of `update_user` on the row
`query(User).filter(User.id == user_id).first()` returned.  (SQLite would
list the row at a new position if its primary key changed; no claim here
depends on listing order, so the model keeps the position.) -/
def replaceFirst (s : Storage) (user_id : Int) (r : User) : Storage :=
  match s with
  | [] => []
  | u :: rest => if u.id == user_id then r :: rest else u :: replaceFirst rest user_id r

/-- `update_user` (`main_api.py` lines 326-340): 404 when no row has
`user_id`; otherwise every field of the row — `id` included — is assigned
from the request body and committed.  The commit raises `IntegrityError`
(mapped to 409, session rolled back) exactly when the body's `id` differs
from `user_id` and already belongs to another row. -/
def update_user (s : Storage) (user_id : Int) (u : UserCreate) :
    Except ApiError User × Storage :=
  if hasId s user_id then
    if u.id != user_id && hasId s u.id then (.error .conflict, s)
    else (.ok (User.ofCreate u), replaceFirst s user_id (User.ofCreate u))
  else (.error .notFound, s)

/-- The response of `bulk_delete_user`:
`{"deleted_count": ..., "not_found": ...}` (plus a message string we do not
model). -/
structure BulkDeleteResult where
  deleted_count : Nat
  not_found : List Int
deriving DecidableEq

/-- Accumulator of `bulk_delete_user`'s loop: the running `deleted_count`,
the collected `not_found` ids, and the ids whose row the session has marked
for deletion. -/
structure BulkDeleteAcc where
  deleted : Nat
  notFound : List Int
  marks : List Int
deriving DecidableEq

/-- The `for item_id in ids` loop of `bulk_delete_user` (`main_api.py` lines
310-316).  The session is created with `autoflush=False`
(`sessionmaker(autocommit=False, autoflush=False, ...)` in `init_db`), so the
`first()` query of every iteration reads the table as it was when the request
began: pending deletes are invisible to it.  An id present in the table
therefore counts into `deleted_count` at every occurrence, while
`database.delete` on the row already marked is a no-op, so `marks` collects
each present id once. -/
def bulkDeleteLoop (s : Storage) (acc : BulkDeleteAcc) : List Int → BulkDeleteAcc
  | [] => acc
  | i :: rest =>
    if hasId s i then
      bulkDeleteLoop s { acc with deleted := acc.deleted + 1, marks := if acc.marks.contains i then acc.marks else acc.marks ++ [i] } rest
    else
      bulkDeleteLoop s { acc with notFound := acc.notFound ++ [i] } rest

/-- The `database.commit()` of `bulk_delete_user`: every marked row — the
first row carrying a marked id — is removed from the table. -/
def commitDeletes (s : Storage) (marks : List Int) : Storage :=
  marks.foldl (fun t i => t.eraseP (fun u => u.id == i)) s

/-- `bulk_delete_user` (`main_api.py` lines 304-324): run the loop, commit,
and report `deleted_count` and `not_found`.  It never raises. -/
def bulk_delete_user (s : Storage) (ids : List Int) : BulkDeleteResult × Storage :=
  let acc := bulkDeleteLoop s ⟨0, [], []⟩ ids
  (⟨acc.deleted, acc.notFound⟩, commitDeletes s acc.marks)

/-- Identity uniqueness of a storage state: the primary-key invariant every
state reachable through the API satisfies. -/
def uniqueIds (s : Storage) : Prop := (s.map (fun r => r.id)).Nodup

/-- A JSON-ish field value of a raw request body. -/
inductive Value where
  | vBool : Bool → Value
  | vStr : String → Value
  | vInt : Int → Value
  | vDate : Date → Value
deriving DecidableEq

/-- A raw creation input: the request body before validation, a mapping from
field names to values. -/
abbrev RawInput := List (String × Value)

/-- First value bound to `name` in the raw input. -/
def lookupField (raw : RawInput) (name : String) : Option Value :=
  (raw.find? (fun p => p.1 == name)).map (fun p => p.2)

/-- The field names the `UserCreate` schema declares
(`pydantic_classes.py` lines 14-19). -/
def declaredFields : List String :=
  ["isActive", "username", "id", "dateOfBirth", "email"]

/-- Validation of a raw body into `UserCreate`, as pydantic performs it for
`class UserCreate(BaseModel)` with its default configuration: every declared
field must be present with a conforming value (we model exact types; pydantic
coercions of other representations do not matter to the claims below), and —
the default being `extra="ignore"` — any field name outside the declared five
is silently dropped, never inspected and never reported as an error. -/
def validateUserCreate (raw : RawInput) : Option UserCreate :=
  match lookupField raw "isActive", lookupField raw "username",
      lookupField raw "id", lookupField raw "dateOfBirth",
      lookupField raw "email" with
  | some (.vBool a), some (.vStr n), some (.vInt i), some (.vDate d),
      some (.vStr e) => some ⟨a, n, i, d, e⟩
  | _, _, _, _, _ => none

theorem hasId_eq_false_iff (s : Storage) (i : Int) :
    hasId s i = false ↔ ∀ r ∈ s, r.id ≠ i := by
  simp [hasId, List.any_eq_true]

theorem filter_id_eq_nil (s : Storage) (i : Int) (h : hasId s i = false) :
    s.filter (fun r => r.id == i) = [] := by
  rw [List.filter_eq_nil_iff]
  intro r hr
  simpa using (hasId_eq_false_iff s i).mp h r hr

/-- C1: starting from any storage not yet holding the identity, the first of
two create requests with that identity succeeds and appends its row, the
second fails with 409 Conflict leaving storage unchanged, and the storage
afterwards holds exactly the first request's row under that identity — the
duplicate create never overwrites it. -/
theorem create_duplicate_conflict (s : Storage) (u₁ u₂ : UserCreate)
    (hid : u₂.id = u₁.id) (hfresh : hasId s u₁.id = false) :
    create_user s u₁ = (.ok (User.ofCreate u₁), s ++ [User.ofCreate u₁]) ∧
    create_user (s ++ [User.ofCreate u₁]) u₂ =
      (.error .conflict, s ++ [User.ofCreate u₁]) ∧
    (s ++ [User.ofCreate u₁]).filter (fun r => r.id == u₁.id) =
      [User.ofCreate u₁] := by
  refine ⟨?_, ?_, ?_⟩
  · simp [create_user, hfresh]
  · have h2 : hasId (s ++ [User.ofCreate u₁]) u₂.id = true := by
      simp [hasId, List.any_eq_true, User.ofCreate, hid]
    simp [create_user, h2]
  · rw [List.filter_append, filter_id_eq_nil s u₁.id hfresh]
    simp [User.ofCreate]

/-- Witness for C1 at a concrete state and concrete requests. -/
theorem create_duplicate_conflict_witness :
    create_user [] ⟨true, "ada", 1, ⟨1990, 1, 1⟩, "a@x.com"⟩ =
      (.ok (User.ofCreate ⟨true, "ada", 1, ⟨1990, 1, 1⟩, "a@x.com"⟩),
        [User.ofCreate ⟨true, "ada", 1, ⟨1990, 1, 1⟩, "a@x.com"⟩]) ∧
    create_user [User.ofCreate ⟨true, "ada", 1, ⟨1990, 1, 1⟩, "a@x.com"⟩]
        ⟨false, "bob", 1, ⟨1980, 2, 2⟩, "b@x.com"⟩ =
      (.error .conflict,
        [User.ofCreate ⟨true, "ada", 1, ⟨1990, 1, 1⟩, "a@x.com"⟩]) ∧
    [User.ofCreate ⟨true, "ada", 1, ⟨1990, 1, 1⟩, "a@x.com"⟩].filter
        (fun r => r.id == (1 : Int)) =
      [User.ofCreate ⟨true, "ada", 1, ⟨1990, 1, 1⟩, "a@x.com"⟩] := by
  have h := create_duplicate_conflict []
    ⟨true, "ada", 1, ⟨1990, 1, 1⟩, "a@x.com"⟩
    ⟨false, "bob", 1, ⟨1980, 2, 2⟩, "b@x.com"⟩ rfl (by decide)
  simpa using h

/-- C4: creating a record whose identity is not yet in storage succeeds, and
`get_user` on that identity then returns exactly the created record, whose
fields are those of the request body (round-trip). -/
theorem create_then_get_roundtrip (s : Storage) (u : UserCreate)
    (hfresh : hasId s u.id = false) :
    create_user s u = (.ok (User.ofCreate u), s ++ [User.ofCreate u]) ∧
    get_user (s ++ [User.ofCreate u]) u.id = .ok ⟨User.ofCreate u⟩ ∧
    (User.ofCreate u).id = u.id ∧
    (User.ofCreate u).username = u.username ∧
    (User.ofCreate u).email = u.email ∧
    (User.ofCreate u).dateOfBirth = u.dateOfBirth ∧
    (User.ofCreate u).isActive = u.isActive := by
  refine ⟨by simp [create_user, hfresh], ?_, rfl, rfl, rfl, rfl, rfl⟩
  have hnone : s.find? (fun r => r.id == u.id) = none := by
    rw [List.find?_eq_none]
    intro r hr
    simpa using (hasId_eq_false_iff s u.id).mp hfresh r hr
  simp [get_user, List.find?_append, hnone, User.ofCreate]

/-- Witness for C4 at a concrete state and request. -/
theorem create_then_get_roundtrip_witness :
    create_user [] ⟨true, "ada", 1, ⟨1990, 1, 1⟩, "a@x.com"⟩ =
      (.ok (User.ofCreate ⟨true, "ada", 1, ⟨1990, 1, 1⟩, "a@x.com"⟩),
        [User.ofCreate ⟨true, "ada", 1, ⟨1990, 1, 1⟩, "a@x.com"⟩]) ∧
    get_user [User.ofCreate ⟨true, "ada", 1, ⟨1990, 1, 1⟩, "a@x.com"⟩] 1 =
      .ok ⟨User.ofCreate ⟨true, "ada", 1, ⟨1990, 1, 1⟩, "a@x.com"⟩⟩ := by
  have h := create_then_get_roundtrip []
    ⟨true, "ada", 1, ⟨1990, 1, 1⟩, "a@x.com"⟩ (by decide)
  exact ⟨h.1, h.2.1⟩

/-- C8: in every storage state, the count endpoint's value equals the length
of the sequence the list-all endpoint returns. -/
theorem count_eq_length_all (s : Storage) :
    get_count_user s = (get_all_user s).length := rfl

/-- C5 counterexample: `get_paginated_user` clamps nothing.  Called with
`skip = -5` it echoes `skip = -5` (not clamped to ≥ 0), and called with
`limit = -1` on a one-row table it returns 1 record, so the record count is
not at most the limit and the limit was not clamped to a positive maximum. -/
theorem paginated_no_clamp_counterexample :
    (get_paginated_user [adaRow] (-5) 7).skip = -5 ∧
    (get_paginated_user [adaRow] 0 (-1)).limit = -1 ∧
    (get_paginated_user [adaRow] 0 (-1)).data.length = 1 ∧
    ¬((1 : Int) ≤ -1) := by
  refine ⟨rfl, rfl, rfl, by decide⟩

/-- C5 amended: `get_paginated_user` echoes `skip` and `limit` unclamped;
its records are a contiguous sub-sequence of `get_all_user` (a drop followed
by a take), of length at most `limit` whenever `limit` is non-negative, and
`total` equals the count endpoint's value regardless of `skip` and `limit`. -/
theorem paginated_window_spec (s : Storage) (skip limit : Int) :
    (get_paginated_user s skip limit).total = get_count_user s ∧
    (get_paginated_user s skip limit).skip = skip ∧
    (get_paginated_user s skip limit).limit = limit ∧
    (∃ a b, (get_paginated_user s skip limit).data =
      ((get_all_user s).drop a).take b) ∧
    (0 ≤ limit →
      (get_paginated_user s skip limit).data.length ≤ limit.toNat) := by
  refine ⟨rfl, rfl, rfl, ?_, ?_⟩
  · by_cases h : limit < 0
    · exact ⟨skip.toNat, (s.drop skip.toNat).length,
        by simp [get_paginated_user, sqliteWindow, h, get_all_user]⟩
    · exact ⟨skip.toNat, limit.toNat,
        by simp [get_paginated_user, sqliteWindow, h, get_all_user]⟩
  · intro hl
    have h : ¬(limit < 0) := not_lt.mpr hl
    simp [get_paginated_user, sqliteWindow, h]

/-- Witness for C5 amended at a concrete state and arguments. -/
theorem paginated_window_spec_witness :
    (0 : Int) ≤ 5 ∧
    (get_paginated_user [adaRow] 0 5).data.length ≤ (5 : Int).toNat :=
  ⟨by decide, ((paginated_window_spec [adaRow] 0 5).2.2.2.2 (by decide))⟩

theorem find_id_eq_none (s : Storage) (i : Int) (h : hasId s i = false) :
    s.find? (fun u => u.id == i) = none := by
  rw [List.find?_eq_none]
  intro r hr
  simpa using (hasId_eq_false_iff s i).mp h r hr

theorem find_erase_decomp (s : Storage) (i : Int) (h : hasId s i = true) :
    ∃ r l₁ l₂, s = l₁ ++ r :: l₂ ∧ r.id = i ∧ (∀ b ∈ l₁, b.id ≠ i) ∧
      s.find? (fun u => u.id == i) = some r ∧
      s.eraseP (fun u => u.id == i) = l₁ ++ l₂ := by
  induction s with
  | nil => simp [hasId] at h
  | cons u rest ih =>
    by_cases hu : u.id = i
    · exact ⟨u, [], rest, by simp, hu,
        by simp, by simp [List.find?_cons, hu], by simp [List.eraseP_cons, hu]⟩
    · have h2 : hasId rest i = true := by
        simp [hasId] at h ⊢
        rcases h with h | h
        · exact absurd h hu
        · exact h
      obtain ⟨r, l₁, l₂, hs, hr, hl₁, hf, he⟩ := ih h2
      refine ⟨r, u :: l₁, l₂, by simp [hs], hr, ?_, ?_, ?_⟩
      · intro b hb
        rcases List.mem_cons.mp hb with hb | hb
        · exact hb ▸ hu
        · exact hl₁ b hb
      · simp [List.find?_cons, hu, hf]
      · simp [List.eraseP_cons, hu, he]

/-- C7: `delete_user` on an id present in storage returns the stored row in
its prior state and removes exactly that row (the rest of storage, before and
after it, is untouched); on an absent id it fails with 404 NotFound and
storage is unchanged. -/
theorem delete_user_spec (s : Storage) (user_id : Int) :
    (hasId s user_id = false → delete_user s user_id = (.error .notFound, s)) ∧
    (hasId s user_id = true → ∃ r l₁ l₂,
      s = l₁ ++ r :: l₂ ∧ r.id = user_id ∧ (∀ b ∈ l₁, b.id ≠ user_id) ∧
      delete_user s user_id = (.ok r, l₁ ++ l₂)) := by
  constructor
  · intro h
    simp [delete_user, find_id_eq_none s user_id h]
  · intro h
    obtain ⟨r, l₁, l₂, hs, hr, hl₁, hf, he⟩ := find_erase_decomp s user_id h
    exact ⟨r, l₁, l₂, hs, hr, hl₁, by simp [delete_user, hf, he]⟩

/-- Witness for C7 at a concrete state: present id 1, absent id 2. -/
theorem delete_user_spec_witness :
    delete_user [adaRow] 2 = (.error .notFound, [adaRow]) ∧
    ∃ r l₁ l₂, ([adaRow] : Storage) = l₁ ++ r :: l₂ ∧ r.id = 1 ∧
      (∀ b ∈ l₁, b.id ≠ 1) ∧ delete_user [adaRow] 1 = (.ok r, l₁ ++ l₂) :=
  ⟨(delete_user_spec [adaRow] 2).1 (by decide),
    (delete_user_spec [adaRow] 1).2 (by decide)⟩

theorem hasId_append (s t : Storage) (i : Int) :
    hasId (s ++ t) i = (hasId s i || hasId t i) := by
  simp [hasId]

theorem bulkCreateLoop_spec (s : Storage) (items : List UserCreate) :
    ∀ acc idx,
      (∀ j ∈ acc.errors, j ∈ (bulkCreateLoop s acc idx items).errors) ∧
      ((bulkCreateLoop s acc idx items).errors = [] →
        acc.errors = [] ∧
        (bulkCreateLoop s acc idx items).pending =
          acc.pending ++ items.map User.ofCreate ∧
        (bulkCreateLoop s acc idx items).created =
          acc.created ++ items.map (fun it => it.id)) ∧
      (∀ i, (h : i < items.length) →
        hasId s ((items.get ⟨i, h⟩).id) = true →
        (idx + i) ∈ (bulkCreateLoop s acc idx items).errors) := by
  induction items with
  | nil =>
    intro acc idx
    refine ⟨fun j hj => hj,
      fun h => ⟨h, by simp [bulkCreateLoop], by simp [bulkCreateLoop]⟩, ?_⟩
    intro i h
    exact absurd h (by simp)
  | cons item rest ih =>
    intro acc idx
    by_cases hp : acc.poisoned
    · have heq : bulkCreateLoop s acc idx (item :: rest) =
          bulkCreateLoop s { acc with errors := acc.errors ++ [idx] } (idx + 1) rest := by
        simp [bulkCreateLoop, hp]
      obtain ⟨H1, H2, H3⟩ := ih { acc with errors := acc.errors ++ [idx] } (idx + 1)
      refine ⟨?_, ?_, ?_⟩
      · intro j hj
        rw [heq]
        exact H1 j (by simp [hj])
      · intro he
        rw [heq] at he
        have := (H2 he).1
        exact absurd this (by simp)
      · intro i h hc
        rw [heq]
        match i with
        | 0 =>
          have : idx ∈ ({ acc with errors := acc.errors ++ [idx] } : BulkCreateAcc).errors := by
            simp
          simpa using H1 idx this
        | (j + 1) =>
          have hj : j < rest.length := by simpa using h
          have := H3 j hj (by simpa using hc)
          have harith : idx + (j + 1) = idx + 1 + j := by omega
          rw [harith]
          exact this
    · by_cases hc0 : hasId (s ++ acc.pending) item.id = true
      · have heq : bulkCreateLoop s acc idx (item :: rest) =
            bulkCreateLoop s
              { acc with errors := acc.errors ++ [idx], poisoned := true }
              (idx + 1) rest := by
          simp [bulkCreateLoop, hp, hc0]
        obtain ⟨H1, H2, H3⟩ :=
          ih { acc with errors := acc.errors ++ [idx], poisoned := true } (idx + 1)
        refine ⟨?_, ?_, ?_⟩
        · intro j hj
          rw [heq]
          exact H1 j (by simp [hj])
        · intro he
          rw [heq] at he
          have := (H2 he).1
          exact absurd this (by simp)
        · intro i h hcc
          rw [heq]
          match i with
          | 0 =>
            have : idx ∈ (acc.errors ++ [idx]) := by simp
            simpa using H1 idx (by simp)
          | (j + 1) =>
            have hj : j < rest.length := by simpa using h
            have := H3 j hj (by simpa using hcc)
            have harith : idx + (j + 1) = idx + 1 + j := by omega
            rw [harith]
            exact this
      · have hc0f : hasId (s ++ acc.pending) item.id = false := by
          simpa using hc0
        have heq : bulkCreateLoop s acc idx (item :: rest) =
            bulkCreateLoop s
              { acc with pending := acc.pending ++ [User.ofCreate item], created := acc.created ++ [(User.ofCreate item).id] }
              (idx + 1) rest := by
          simp [bulkCreateLoop, hp, hc0f]
        obtain ⟨H1, H2, H3⟩ :=
          ih { acc with pending := acc.pending ++ [User.ofCreate item], created := acc.created ++ [(User.ofCreate item).id] }
            (idx + 1)
        refine ⟨?_, ?_, ?_⟩
        · intro j hj
          rw [heq]
          exact H1 j hj
        · intro he
          rw [heq] at he
          obtain ⟨he0, hpend, hcre⟩ := H2 he
          refine ⟨he0, ?_, ?_⟩
          · rw [heq, hpend]
            simp [User.ofCreate]
          · rw [heq, hcre]
            simp [User.ofCreate]
        · intro i h hcc
          rw [heq]
          match i with
          | 0 =>
            have : hasId (s ++ acc.pending) item.id = true := by
              rw [hasId_append]
              simp at hcc
              simp [hcc]
            exact absurd this (by simp [hc0f])
          | (j + 1) =>
            have hj : j < rest.length := by simpa using h
            have := H3 j hj (by simpa using hcc)
            have harith : idx + (j + 1) = idx + 1 + j := by omega
            rw [harith]
            exact this

/-- C2: the bulk create batch is all-or-nothing.  When it succeeds, every
row of the batch is appended to storage in order and the response reports all
their ids and their count; when it fails, storage is exactly the pre-request
storage (no row of the batch was inserted) and the 400 response carries a
non-empty error-index list that includes the index of every item whose
identity already existed in storage. -/
theorem bulk_create_all_or_nothing (s : Storage) (items : List UserCreate) :
    (∀ res s₂, bulk_create_user s items = (.ok res, s₂) →
      s₂ = s ++ items.map User.ofCreate ∧
      res.created_ids = items.map (fun it => it.id) ∧
      res.created_count = items.length) ∧
    (∀ e s₂, bulk_create_user s items = (.error e, s₂) →
      s₂ = s ∧ ∃ errs, e = .badRequest errs ∧ errs ≠ [] ∧
        ∀ i, (h : i < items.length) →
          hasId s ((items.get ⟨i, h⟩).id) = true → i ∈ errs) := by
  obtain ⟨H1, H2, H3⟩ := bulkCreateLoop_spec s items ⟨[], [], [], false⟩ 0
  constructor
  · intro res s₂ hok
    simp only [bulk_create_user] at hok
    by_cases he : (bulkCreateLoop s ⟨[], [], [], false⟩ 0 items).errors.isEmpty
    · rw [if_pos he] at hok
      obtain ⟨_, hpend, hcre⟩ := H2 (List.isEmpty_iff.mp he)
      have h1 : (Except.ok
          (⟨(bulkCreateLoop s ⟨[], [], [], false⟩ 0 items).created.length,
            (bulkCreateLoop s ⟨[], [], [], false⟩ 0 items).created⟩ : BulkCreateResult) :
          Except ApiError BulkCreateResult) = .ok res := congrArg Prod.fst hok
      have h2 : s ++ (bulkCreateLoop s ⟨[], [], [], false⟩ 0 items).pending = s₂ :=
        congrArg Prod.snd hok
      have hres : res =
          ⟨(bulkCreateLoop s ⟨[], [], [], false⟩ 0 items).created.length,
            (bulkCreateLoop s ⟨[], [], [], false⟩ 0 items).created⟩ := by
        injection h1 with h
        exact h.symm
      refine ⟨?_, ?_, ?_⟩
      · rw [← h2, hpend]
        simp
      · rw [hres, hcre]
        simp
      · rw [hres, hcre]
        simp
    · rw [if_neg he] at hok
      exact absurd hok (by simp)
  · intro e s₂ herr
    simp only [bulk_create_user] at herr
    by_cases he : (bulkCreateLoop s ⟨[], [], [], false⟩ 0 items).errors.isEmpty
    · rw [if_pos he] at herr
      exact absurd herr (by simp)
    · rw [if_neg he] at herr
      have h1 : (Except.error
          (.badRequest (bulkCreateLoop s ⟨[], [], [], false⟩ 0 items).errors) :
          Except ApiError BulkCreateResult) = .error e := congrArg Prod.fst herr
      have h2 : s = s₂ := congrArg Prod.snd herr
      have hE : ApiError.badRequest (bulkCreateLoop s ⟨[], [], [], false⟩ 0 items).errors = e := by
        injection h1 with h
      refine ⟨h2.symm, (bulkCreateLoop s ⟨[], [], [], false⟩ 0 items).errors, hE.symm, ?_, ?_⟩
      · intro hnil
        rw [hnil] at he
        exact he rfl
      · intro i h hcc
        simpa using H3 i h hcc

/-- Witness for C2: a successful batch of one and a failing batch whose second
item duplicates the first. -/
theorem bulk_create_all_or_nothing_witness :
    (([] : Storage) ++ [adaCreate].map User.ofCreate = [] ++ [adaCreate].map User.ofCreate) ∧
    (([] : Storage) = [] ∧ ∃ errs, ApiError.badRequest [1] = .badRequest errs ∧
      errs ≠ [] ∧ ∀ i, (h : i < ([adaCreate, adaCreate] : List UserCreate).length) →
        hasId [] ((([adaCreate, adaCreate] : List UserCreate).get ⟨i, h⟩).id) = true →
        i ∈ errs) := by
  refine ⟨rfl, (bulk_create_all_or_nothing [] [adaCreate, adaCreate]).2
    (.badRequest [1]) [] ?_⟩
  rfl

/-- C10: bulk create of the empty batch succeeds with `created_count = 0`,
an empty id list, and unchanged storage. -/
theorem bulk_create_empty (s : Storage) :
    bulk_create_user s [] = (.ok ⟨0, []⟩, s) := by
  simp [bulk_create_user, bulkCreateLoop]

/-- C3 counterexample: `update_user` does not require the body's identity to
match the id argument.  Updating the record with identity 1 by a payload
carrying identity 2 succeeds and rewrites the stored identity to 2. -/
theorem update_changes_identity_counterexample :
    update_user [adaRow] 1 ⟨true, "ada", 2, ⟨1990, 1, 1⟩, "a@x.com"⟩ =
      (.ok (User.ofCreate ⟨true, "ada", 2, ⟨1990, 1, 1⟩, "a@x.com"⟩),
        [User.ofCreate ⟨true, "ada", 2, ⟨1990, 1, 1⟩, "a@x.com"⟩]) ∧
    (User.ofCreate ⟨true, "ada", 2, ⟨1990, 1, 1⟩, "a@x.com"⟩).id = 2 ∧
    ((2 : Int) ≠ 1) := by
  refine ⟨rfl, rfl, by decide⟩

theorem hasId_eq_true_iff (s : Storage) (i : Int) :
    hasId s i = true ↔ ∃ r ∈ s, r.id = i := by
  simp [hasId, List.any_eq_true]

theorem replaceFirst_decomp (s : Storage) (i : Int) (r : User)
    (h : hasId s i = true) :
    ∃ old l₁ l₂, s = l₁ ++ old :: l₂ ∧ old.id = i ∧ (∀ b ∈ l₁, b.id ≠ i) ∧
      replaceFirst s i r = l₁ ++ r :: l₂ := by
  induction s with
  | nil => simp [hasId] at h
  | cons u rest ih =>
    by_cases hu : u.id = i
    · exact ⟨u, [], rest, by simp, hu, by simp, by simp [replaceFirst, hu]⟩
    · have h2 : hasId rest i = true := by
        simp [hasId] at h ⊢
        rcases h with h | h
        · exact absurd h hu
        · exact h
      obtain ⟨old, l₁, l₂, hs, hold, hl₁, hrep⟩ := ih h2
      refine ⟨old, u :: l₁, l₂, by simp [hs], hold, ?_, ?_⟩
      · intro b hb
        rcases List.mem_cons.mp hb with hb | hb
        · exact hb ▸ hu
        · exact hl₁ b hb
      · simp [replaceFirst, hu, hrep]

theorem replaceFirst_append_of_not (l₁ t : Storage) (i : Int) (r : User)
    (h : ∀ b ∈ l₁, b.id ≠ i) :
    replaceFirst (l₁ ++ t) i r = l₁ ++ replaceFirst t i r := by
  induction l₁ with
  | nil => rfl
  | cons b rest ih =>
    have hb : b.id ≠ i := h b (by simp)
    have hrest : ∀ x ∈ rest, x.id ≠ i := fun x hx => h x (by simp [hx])
    simp [replaceFirst, hb, ih hrest]

/-- C3 amended: `update_user` on an absent id fails with 404 NotFound leaving
storage unchanged; on a present id it fully replaces the stored row by the
row built from the payload, identity included (the payload identity is not
required to match the id argument), unless the payload carries a different
identity that another row already holds, in which case it fails with 409
Conflict leaving storage unchanged; and applying the same update twice always
leaves the same stored state as applying it once. -/
theorem update_user_spec (s : Storage) (user_id : Int) (p : UserCreate) :
    (hasId s user_id = false → update_user s user_id p = (.error .notFound, s)) ∧
    (hasId s user_id = true → p.id ≠ user_id → hasId s p.id = true →
      update_user s user_id p = (.error .conflict, s)) ∧
    (hasId s user_id = true → (p.id = user_id ∨ hasId s p.id = false) →
      update_user s user_id p =
        (.ok (User.ofCreate p), replaceFirst s user_id (User.ofCreate p))) ∧
    (update_user (update_user s user_id p).2 user_id p).2 =
      (update_user s user_id p).2 := by
  refine ⟨?_, ?_, ?_, ?_⟩
  · intro h
    simp [update_user, h]
  · intro h1 hne hp
    have hbne : (p.id != user_id) = true := bne_iff_ne.mpr hne
    simp [update_user, h1, hbne, hp]
  · intro h1 hcase
    rcases hcase with hcase | hcase
    · have hbne : (p.id != user_id) = false := by
        simp [bne_iff_ne, hcase]
      simp [update_user, h1, hbne]
    · simp [update_user, h1, hcase]
  · by_cases h1 : hasId s user_id = true
    · by_cases hcond : (p.id != user_id && hasId s p.id) = true
      · simp [update_user, h1, hcond]
      · have hcondf : (p.id != user_id && hasId s p.id) = false := by
          simpa using hcond
        have hfirst : (update_user s user_id p).2 =
            replaceFirst s user_id (User.ofCreate p) := by
          simp [update_user, h1, hcondf]
        obtain ⟨old, l₁, l₂, hs, hold, hl₁, hrep⟩ :=
          replaceFirst_decomp s user_id (User.ofCreate p) h1
        rw [hfirst, hrep]
        by_cases hpid : p.id = user_id
        · have hhas : hasId (l₁ ++ User.ofCreate p :: l₂) user_id = true := by
            simp [hasId, User.ofCreate, hpid]
          have hbne : (p.id != user_id) = false := by
            simp [bne_iff_ne, hpid]
          have hrep2 : replaceFirst (l₁ ++ User.ofCreate p :: l₂) user_id
              (User.ofCreate p) = l₁ ++ User.ofCreate p :: l₂ := by
            rw [replaceFirst_append_of_not l₁ _ user_id _ hl₁]
            simp [replaceFirst, User.ofCreate, hpid]
          simp [update_user, hhas, hbne, hrep2]
        · by_cases h2 : hasId l₂ user_id = true
          · have hhas : hasId (l₁ ++ User.ofCreate p :: l₂) user_id = true := by
              obtain ⟨r, hr, hrid⟩ := (hasId_eq_true_iff l₂ user_id).mp h2
              exact (hasId_eq_true_iff _ _).mpr ⟨r, by simp [hr], hrid⟩
            have hbne : (p.id != user_id) = true := bne_iff_ne.mpr hpid
            have hp2 : hasId (l₁ ++ User.ofCreate p :: l₂) p.id = true :=
              (hasId_eq_true_iff _ _).mpr ⟨User.ofCreate p, by simp, rfl⟩
            simp [update_user, hhas, hbne, hp2]
          · have h2f : hasId l₂ user_id = false := by simpa using h2
            have hhas : hasId (l₁ ++ User.ofCreate p :: l₂) user_id = false := by
              apply (hasId_eq_false_iff _ _).mpr
              intro r hr
              rcases (by simpa using hr :
                  r ∈ l₁ ∨ r = User.ofCreate p ∨ r ∈ l₂) with h | h | h
              · exact hl₁ r h
              · rw [h]
                simpa [User.ofCreate] using hpid
              · exact (hasId_eq_false_iff l₂ user_id).mp h2f r h
            simp [update_user, hhas]
    · have h1f : hasId s user_id = false := by simpa using h1
      simp [update_user, h1f]

/-- Witness for C3 amended: a successful full replacement at a concrete
state, identity unchanged. -/
theorem update_user_spec_witness :
    update_user [adaRow] 1 adaCreate =
      (.ok (User.ofCreate adaCreate), replaceFirst [adaRow] 1 (User.ofCreate adaCreate)) :=
  (update_user_spec [adaRow] 1 adaCreate).2.2.1 (by decide) (Or.inl rfl)

/-- C6 counterexample: on the one-row table with identity 1, deleting
`[1, 1]` reports `deleted_count = 2` although only one record is removed, so
`deleted_count` does not equal the number of records removed (and the second
occurrence of the present id 1 is not reported in `not_found` either way). -/
theorem bulk_delete_duplicate_counterexample :
    bulk_delete_user [adaRow] [1, 1] = (⟨2, []⟩, []) ∧
    ([adaRow] : Storage).length = 1 ∧ ((2 : Nat) ≠ 1) := by
  refine ⟨rfl, rfl, by decide⟩

theorem bulkDeleteLoop_spec (s : Storage) (ids : List Int) :
    ∀ acc,
      (bulkDeleteLoop s acc ids).deleted =
        acc.deleted + ids.countP (fun i => hasId s i) ∧
      (bulkDeleteLoop s acc ids).notFound =
        acc.notFound ++ ids.filter (fun i => !(hasId s i)) ∧
      (∀ j, j ∈ (bulkDeleteLoop s acc ids).marks ↔
        j ∈ acc.marks ∨ (j ∈ ids ∧ hasId s j = true)) := by
  induction ids with
  | nil =>
    intro acc
    simp [bulkDeleteLoop]
  | cons i rest ih =>
    intro acc
    by_cases hi : hasId s i = true
    · have heq : bulkDeleteLoop s acc (i :: rest) =
          bulkDeleteLoop s { acc with deleted := acc.deleted + 1, marks := if acc.marks.contains i then acc.marks else acc.marks ++ [i] } rest := by
        simp [bulkDeleteLoop, hi]
      obtain ⟨H1, H2, H3⟩ :=
        ih { acc with deleted := acc.deleted + 1, marks := if acc.marks.contains i then acc.marks else acc.marks ++ [i] }
      refine ⟨?_, ?_, ?_⟩
      · rw [heq, H1, List.countP_cons]
        simp [hi]
        omega
      · rw [heq, H2]
        simp [hi]
      · intro j
        rw [heq, H3 j]
        by_cases hm : acc.marks.contains i = true
        · have hmem : i ∈ acc.marks := by simpa using hm
          rw [if_pos hm]
          by_cases hji : j = i
          · subst hji
            exact iff_of_true (Or.inl hmem) (Or.inl hmem)
          · simp [List.mem_cons, hji]
        · have hmf : acc.marks.contains i = false := by simpa using hm
          rw [if_neg (by simpa using hm)]
          by_cases hji : j = i
          · subst hji
            exact iff_of_true (Or.inl (by simp)) (Or.inr ⟨by simp, hi⟩)
          · simp [List.mem_append, List.mem_cons, hji]
    · have hif : hasId s i = false := by simpa using hi
      have heq : bulkDeleteLoop s acc (i :: rest) =
          bulkDeleteLoop s { acc with notFound := acc.notFound ++ [i] } rest := by
        simp [bulkDeleteLoop, hif]
      obtain ⟨H1, H2, H3⟩ := ih { acc with notFound := acc.notFound ++ [i] }
      refine ⟨?_, ?_, ?_⟩
      · rw [heq, H1, List.countP_cons]
        simp [hif]
      · rw [heq, H2]
        simp [hif]
      · intro j
        rw [heq, H3 j]
        by_cases hji : j = i
        · subst hji
          simp [List.mem_cons, hif]
        · simp [List.mem_cons, hji]

theorem uniqueIds_cons (u : User) (rest : Storage) (hs : uniqueIds (u :: rest)) :
    uniqueIds rest ∧ ∀ r ∈ rest, r.id ≠ u.id := by
  have h : (∀ x ∈ rest, ¬x.id = u.id) ∧ (rest.map (fun r => r.id)).Nodup := by
    simpa [uniqueIds] using hs
  exact ⟨h.2, fun r hr => h.1 r hr⟩

theorem eraseP_id_of_unique (s : Storage) (i : Int) (hs : uniqueIds s) :
    s.eraseP (fun u => u.id == i) = s.filter (fun u => !(u.id == i)) := by
  induction s with
  | nil => rfl
  | cons u rest ih =>
    obtain ⟨hs2, hrest⟩ := uniqueIds_cons u rest hs
    by_cases hu : u.id = i
    · have hkeep : rest.filter (fun r => !(r.id == i)) = rest := by
        rw [List.filter_eq_self]
        intro r hr
        simpa using fun hri => hrest r hr (hri.trans hu.symm)
      simp [List.eraseP_cons, List.filter_cons, hu, hkeep]
    · simp [List.eraseP_cons, List.filter_cons, hu, ih hs2]

theorem uniqueIds_filter (s : Storage) (p : User → Bool) (hs : uniqueIds s) :
    uniqueIds (s.filter p) := by
  have hsub : List.Sublist ((s.filter p).map (fun r => r.id))
      (s.map (fun r => r.id)) :=
    (List.filter_sublist s).map _
  exact List.Nodup.sublist hsub hs

theorem commitDeletes_eq_filter (marks : List Int) : ∀ s : Storage, uniqueIds s →
    commitDeletes s marks = s.filter (fun r => !(marks.contains r.id)) := by
  induction marks with
  | nil =>
    intro s hs
    simp [commitDeletes]
  | cons i rest ih =>
    intro s hs
    have hstep : commitDeletes s (i :: rest) =
        commitDeletes (s.eraseP (fun u => u.id == i)) rest := rfl
    rw [hstep, eraseP_id_of_unique s i hs,
      ih _ (uniqueIds_filter s _ hs), List.filter_filter]
    apply List.filter_congr
    intro r hr
    by_cases h1 : r.id = i <;> by_cases h2 : r.id ∈ rest <;>
      simp [List.contains_cons, h1, h2]

theorem bulk_delete_not_found (s : Storage) (ids : List Int) :
    (bulk_delete_user s ids).1.not_found = ids.filter (fun i => !(hasId s i)) := by
  obtain ⟨H1, H2, H3⟩ := bulkDeleteLoop_spec s ids ⟨0, [], []⟩
  simp [bulk_delete_user, H2]

theorem bulk_delete_count (s : Storage) (ids : List Int) :
    (bulk_delete_user s ids).1.deleted_count = ids.countP (fun i => hasId s i) := by
  obtain ⟨H1, H2, H3⟩ := bulkDeleteLoop_spec s ids ⟨0, [], []⟩
  simp [bulk_delete_user, H1]

theorem bulk_delete_state (s : Storage) (ids : List Int) (hs : uniqueIds s) :
    (bulk_delete_user s ids).2 = s.filter (fun r => !(ids.contains r.id)) := by
  obtain ⟨H1, H2, H3⟩ := bulkDeleteLoop_spec s ids ⟨0, [], []⟩
  have hcommit := commitDeletes_eq_filter (bulkDeleteLoop s ⟨0, [], []⟩ ids).marks s hs
  show commitDeletes s (bulkDeleteLoop s ⟨0, [], []⟩ ids).marks = _
  rw [hcommit]
  apply List.filter_congr
  intro r hr
  have hrid : hasId s r.id = true := (hasId_eq_true_iff s r.id).mpr ⟨r, hr, rfl⟩
  by_cases hmem : r.id ∈ ids
  · have h1 : r.id ∈ (bulkDeleteLoop s ⟨0, [], []⟩ ids).marks :=
      (H3 r.id).mpr (Or.inr ⟨hmem, hrid⟩)
    simp [h1, hmem]
  · have h1 : r.id ∉ (bulkDeleteLoop s ⟨0, [], []⟩ ids).marks := by
      intro hin
      rcases (H3 r.id).mp hin with h | ⟨h, _⟩
      · simp at h
      · exact hmem h
    simp [h1, hmem]

theorem countP_or_disjoint (l : List Int) (p q : Int → Bool)
    (h : ∀ a ∈ l, ¬(p a = true ∧ q a = true)) :
    l.countP (fun a => p a || q a) = l.countP p + l.countP q := by
  induction l with
  | nil => simp
  | cons a t ih =>
    have ht : ∀ x ∈ t, ¬(p x = true ∧ q x = true) := fun x hx => h x (by simp [hx])
    have ha := h a (by simp)
    rw [List.countP_cons, List.countP_cons, List.countP_cons, ih ht]
    cases hp : p a <;> cases hq : q a <;> simp [hp, hq] at ha ⊢ <;> omega

theorem countP_rows_or_disjoint (l : Storage) (p q : User → Bool)
    (h : ∀ a ∈ l, ¬(p a = true ∧ q a = true)) :
    l.countP (fun a => p a || q a) = l.countP p + l.countP q := by
  induction l with
  | nil => simp
  | cons a t ih =>
    have ht : ∀ x ∈ t, ¬(p x = true ∧ q x = true) := fun x hx => h x (by simp [hx])
    have ha := h a (by simp)
    rw [List.countP_cons, List.countP_cons, List.countP_cons, ih ht]
    cases hp : p a <;> cases hq : q a <;> simp [hp, hq] at ha ⊢ <;> omega

theorem countP_id_of_unique (s : Storage) (i : Int) (hs : uniqueIds s) :
    s.countP (fun r => r.id == i) = if hasId s i then 1 else 0 := by
  induction s with
  | nil => simp [hasId]
  | cons u rest ih =>
    obtain ⟨hs2, hrest⟩ := uniqueIds_cons u rest hs
    rw [List.countP_cons]
    by_cases hu : u.id = i
    · have hzero : rest.countP (fun r => r.id == i) = 0 := by
        rw [List.countP_eq_zero]
        intro r hr
        simpa using fun hri => hrest r hr (hri.trans hu.symm)
      have hhas : hasId (u :: rest) i = true := by simp [hasId, hu]
      simp [hzero, hu, hhas]
    · have hhd : hasId (u :: rest) i = hasId rest i := by simp [hasId, hu]
      simp [hu, ih hs2, hhd]

theorem length_filter_partition (l : Storage) (p : User → Bool) :
    l.length = (l.filter p).length + (l.filter (fun a => !(p a))).length := by
  induction l with
  | nil => simp
  | cons a t ih =>
    cases hp : p a <;> simp [List.filter_cons, hp, ih] <;> omega

theorem count_rows_eq_count_ids (s : Storage) (ids : List Int)
    (hs : uniqueIds s) (hids : ids.Nodup) :
    (s.filter (fun r => ids.contains r.id)).length =
      ids.countP (fun i => hasId s i) := by
  induction ids with
  | nil => simp
  | cons i rest ih =>
    obtain ⟨hnotin, hrest⟩ := List.nodup_cons.mp hids
    have hpoint : s.filter (fun r => (i :: rest).contains r.id) =
        s.filter (fun r => (r.id == i) || rest.contains r.id) := by
      apply List.filter_congr
      intro r hr
      by_cases h : r.id = i <;> simp [List.contains_cons, h]
    have hdisj : ∀ a ∈ s, ¬((a.id == i) = true ∧ rest.contains a.id = true) := by
      intro a ha ⟨h1, h2⟩
      have : a.id = i := by simpa using h1
      have : i ∈ rest := by
        rw [← this]
        simpa using h2
      exact hnotin this
    rw [hpoint, ← List.countP_eq_length_filter,
      countP_rows_or_disjoint s _ _ hdisj, List.countP_cons,
      countP_id_of_unique s i hs, List.countP_eq_length_filter, ih hrest]
    by_cases hhas : hasId s i = true
    all_goals simp [hhas]
    all_goals omega

/-- C6 amended: for a duplicate-free list of ids, `bulk_delete_user` removes
exactly the stored records whose identity is listed, reports `deleted_count`
equal to the number of records removed, reports in `not_found` exactly the
listed ids absent from storage, and (up to the order of `not_found`, which
follows the input order) the outcome is independent of the order of the ids;
ids absent from storage never prevent the present ones from being deleted.
When the list repeats an id that is present, that id is counted once per
occurrence while its record is removed only once, which is what forces the
duplicate-free hypothesis. -/
theorem bulk_delete_spec (s : Storage) (ids : List Int)
    (hs : uniqueIds s) (hids : ids.Nodup) :
    (bulk_delete_user s ids).1.not_found = ids.filter (fun i => !(hasId s i)) ∧
    (bulk_delete_user s ids).1.deleted_count = ids.countP (fun i => hasId s i) ∧
    (bulk_delete_user s ids).2 = s.filter (fun r => !(ids.contains r.id)) ∧
    s.length = (bulk_delete_user s ids).2.length +
      (bulk_delete_user s ids).1.deleted_count ∧
    (∀ ids₂, ids.Perm ids₂ →
      (bulk_delete_user s ids₂).1.deleted_count =
        (bulk_delete_user s ids).1.deleted_count ∧
      (bulk_delete_user s ids₂).1.not_found.Perm
        (bulk_delete_user s ids).1.not_found ∧
      (bulk_delete_user s ids₂).2 = (bulk_delete_user s ids).2) := by
  refine ⟨bulk_delete_not_found s ids, bulk_delete_count s ids,
    bulk_delete_state s ids hs, ?_, ?_⟩
  · rw [bulk_delete_state s ids hs, bulk_delete_count s ids,
      ← count_rows_eq_count_ids s ids hs hids]
    have := length_filter_partition s (fun r => ids.contains r.id)
    omega
  · intro ids₂ hperm
    refine ⟨?_, ?_, ?_⟩
    · rw [bulk_delete_count s ids₂, bulk_delete_count s ids]
      exact (hperm.countP_eq _).symm
    · rw [bulk_delete_not_found s ids₂, bulk_delete_not_found s ids]
      exact (hperm.filter _).symm
    · rw [bulk_delete_state s ids₂ hs, bulk_delete_state s ids hs]
      apply List.filter_congr
      intro r hr
      by_cases hmem : r.id ∈ ids
      · have hmem₂ : r.id ∈ ids₂ := hperm.mem_iff.mp hmem
        simp [hmem, hmem₂]
      · have hmem₂ : r.id ∉ ids₂ := fun h => hmem (hperm.mem_iff.mpr h)
        simp [hmem, hmem₂]

/-- Witness for C6 amended: storage holding identity 1, deleting `[1, 7]`. -/
theorem bulk_delete_spec_witness :
    (bulk_delete_user [adaRow] [1, 7]).1.not_found =
      ([1, 7] : List Int).filter (fun i => !(hasId [adaRow] i)) ∧
    (bulk_delete_user [adaRow] [1, 7]).1.deleted_count =
      ([1, 7] : List Int).countP (fun i => hasId [adaRow] i) ∧
    (bulk_delete_user [adaRow] [1, 7]).2 =
      ([adaRow] : Storage).filter (fun r => !(([1, 7] : List Int).contains r.id)) := by
  have h := bulk_delete_spec [adaRow] [1, 7] (by simp [uniqueIds]) (by simp)
  exact ⟨h.1, h.2.1, h.2.2.1⟩

/-- C9 counterexample: a raw input carrying the undeclared field `nickname`
is not rejected — validation succeeds and simply drops the field. -/
theorem validate_unknown_field_counterexample :
    ("nickname" ∈ declaredFields → False) ∧
    validateUserCreate
      [("isActive", .vBool true), ("username", .vStr "ada"), ("id", .vInt 1),
        ("dateOfBirth", .vDate ⟨1990, 1, 1⟩), ("email", .vStr "a@x.com"),
        ("nickname", .vStr "grace")] =
      some ⟨true, "ada", 1, ⟨1990, 1, 1⟩, "a@x.com"⟩ := by
  exact ⟨by decide, rfl⟩

theorem find_filter_declared (raw : RawInput) (name : String)
    (hname : declaredFields.contains name = true) :
    (raw.filter (fun q => declaredFields.contains q.1)).find?
        (fun q => q.1 == name) =
      raw.find? (fun q => q.1 == name) := by
  induction raw with
  | nil => rfl
  | cons p rest ih =>
    by_cases hp : p.1 = name
    · have hq : (fun q : String × Value => declaredFields.contains q.1) p = true := by
        show declaredFields.contains p.1 = true
        rw [hp]
        exact hname
      have hbeq : (fun q : String × Value => q.1 == name) p = true := by
        show (p.1 == name) = true
        simpa using hp
      rw [@List.filter_cons_of_pos _ (fun q => declaredFields.contains q.1) p rest hq,
        @List.find?_cons_of_pos _ (fun q => q.1 == name) p
          (rest.filter (fun q => declaredFields.contains q.1)) hbeq,
        @List.find?_cons_of_pos _ (fun q => q.1 == name) p rest hbeq]
    · have hbne : ¬((fun q : String × Value => q.1 == name) p = true) := by
        show ¬((p.1 == name) = true)
        simpa using hp
      by_cases hq : (fun q : String × Value => declaredFields.contains q.1) p = true
      · rw [@List.filter_cons_of_pos _ (fun q => declaredFields.contains q.1) p rest hq,
          @List.find?_cons_of_neg _ (fun q => q.1 == name) p
            (rest.filter (fun q => declaredFields.contains q.1)) hbne,
          @List.find?_cons_of_neg _ (fun q => q.1 == name) p rest hbne]
        exact ih
      · rw [@List.filter_cons_of_neg _ (fun q => declaredFields.contains q.1) p rest hq]
        rw [@List.find?_cons_of_neg _ (fun q => q.1 == name) p rest hbne]
        exact ih

theorem lookupField_filter_declared (raw : RawInput) (name : String)
    (hname : declaredFields.contains name = true) :
    lookupField (raw.filter (fun p => declaredFields.contains p.1)) name =
      lookupField raw name := by
  unfold lookupField
  rw [find_filter_declared raw name hname]

/-- C9 amended: unknown fields in a raw creation input are silently ignored,
not rejected — validating any raw input gives exactly the same outcome as
validating the input with every undeclared field removed; in particular an
input is never rejected for carrying an unknown field. -/
theorem validate_ignores_unknown_fields (raw : RawInput) :
    validateUserCreate raw =
      validateUserCreate (raw.filter (fun p => declaredFields.contains p.1)) := by
  rw [validateUserCreate, validateUserCreate,
    lookupField_filter_declared raw "isActive" (by decide),
    lookupField_filter_declared raw "username" (by decide),
    lookupField_filter_declared raw "id" (by decide),
    lookupField_filter_declared raw "dateOfBirth" (by decide),
    lookupField_filter_declared raw "email" (by decide)]
